import Mathlib

/-!
Shallow embedding of the summary-chart subsystem of cargo-criterion, from
src/src/plot/gnuplot_backend/summary.rs and
src/src/plot/plotters_backend/summary.rs.

Rust f64 values are modelled as exact rationals.  Where NaN semantics
matters for the claims (the x comparator of the sort and the fold that
computes the maximum Typical estimate) the type F below is used, a rational
extended with a NaN point.  Code that can panic (unwrap, out-of-bounds
indexing) is embedded as Option-returning functions, with none standing for
the panic.  The kernel density estimator and the value formatter are
external collaborators of this subsystem and enter the embedding as a
function parameter and a record of functions.
-/

/-- Model of Rust f64 where NaN matters: either NaN or a finite value,
modelled as a rational. -/
inductive F where
  | nan : F
  | fin : ℚ → F
deriving DecidableEq

/-- Comparison of two rationals, the result f64 partial_cmp gives on finite
values. -/
def qcmp (a b : ℚ) : Ordering :=
  if a < b then Ordering.lt else if b < a then Ordering.gt else Ordering.eq

/-- Embeds f64::partial_cmp: none when either side is NaN. -/
def pcmpF : F → F → Option Ordering
  | F.fin a, F.fin b => some (qcmp a b)
  | _, _ => none

/-- Embeds the comparator of line_comparison in both backends:
ax.partial_cmp(&bx).unwrap_or(Ordering::Less). -/
def rustCmp (a b : F) : Ordering := (pcmpF a b).getD Ordering.lt

/-- Embeds f64::max, which ignores a NaN argument. -/
def fmaxF : F → F → F
  | F.nan, b => b
  | F.fin a, F.nan => F.fin a
  | F.fin a, F.fin b => F.fin (max a b)

/-- Embeds .fold(std::f64::NAN, f64::max) over a list of finite values
(gnuplot_backend/summary.rs lines 70-79, plotters_backend/summary.rs lines
123-133). -/
def foldNanMax (l : List ℚ) : F :=
  l.foldl (fun acc t => fmaxF acc (F.fin t)) F.nan

/-- Modelled from the spec: the value-formatter collaborator is not part of
this excerpt.  Its contract: from one representative magnitude it chooses a
display unit label and a single scalar multiplier. -/
structure ValueFormatter where
  unitFor : F → String
  factor : F → ℚ

/-- Modelled from the spec: scale_values(typical, values) of the formatter
multiplies every value by the multiplier chosen from the representative
magnitude and returns the unit label. -/
def ValueFormatter.scale_values (fmt : ValueFormatter) (typical : F) (values : List ℚ) :
    String × List ℚ :=
  (fmt.unitFor typical, values.map (fun v => v * fmt.factor typical))

/-- Modelled from the spec: the statistic kinds of the estimates mapping. -/
inductive Statistic where
  | Mean
  | Median
  | MedianAbsDev
  | Slope
  | StdDev
  | Typical
deriving DecidableEq

/-- Modelled from the spec: an estimate exposing a point value. -/
structure Estimate where
  point_estimate : ℚ

/-- Modelled from the spec: the latest computed statistics of a benchmark, a
mapping from statistic kind to estimate plus the raw sequence of
per-iteration average measurements. -/
structure SavedStatistics where
  estimates : Statistic → Option Estimate
  avg_values : List ℚ

/-- Modelled from the spec: a benchmark record holding its latest
statistics. -/
structure Benchmark where
  latest_stats : SavedStatistics

/-- Modelled from the spec: a benchmark identifier: an optional function
identifier, an optional numeric input value (as_number) and a display title
(as_title). -/
structure BenchmarkId where
  function_id : Option String
  value : Option F
  title : String

/-- Modelled from the spec: escape_underscores, defined outside this excerpt
in the gnuplot backend module, escapes every literal underscore of the title
text for safe rendering. -/
def escape_underscores (s : String) : String :=
  String.mk (s.data.flatMap (fun c => if c = '_' then ['\\', '_'] else [c]))

/-- Modelled from the spec: Sample::max of the statistics engine, the
maximum of a sample of values; density curves, its only use here, are
nonempty. -/
def sampleMax : List ℚ → ℚ
  | [] => 0
  | x :: xs => xs.foldl max x

/-- Embeds the per-curve normalization of violin in both backends
(gnuplot_backend/summary.rs lines 160-163, plotters_backend/summary.rs lines
189-192): every density value is divided by the maximum of its own curve.
Rational division by zero is zero; no claim depends on an all-zero curve. -/
def normalizeCurve (y : List ℚ) : List ℚ :=
  y.map (fun v => v / sampleMax y)

/-- Embeds LinkedHashMap entry(key).or_insert(Vec::new()).push(p): append p
to the first entry carrying this key, or append a new entry at the end. -/
def insertGroup (k : Option String) (p : BenchmarkId × Benchmark) :
    List (Option String × List (BenchmarkId × Benchmark)) →
    List (Option String × List (BenchmarkId × Benchmark))
  | [] => [(k, [p])]
  | e :: rest => if e.1 = k then (e.1, e.2 ++ [p]) :: rest else e :: insertGroup k p rest

/-- Embeds the grouping loop of line_comparison in both backends
(gnuplot_backend/summary.rs lines 91-97, plotters_backend/summary.rs lines
140-146): a LinkedHashMap from function_id to the pairs carrying it,
iterated in insertion order. -/
def groupByFn (l : List (BenchmarkId × Benchmark)) :
    List (Option String × List (BenchmarkId × Benchmark)) :=
  l.foldl (fun m p => insertGroup p.1.function_id p m) []

/-- Content of the group of key k, the empty list when k has no group. -/
def lookupList (k : Option String)
    (m : List (Option String × List (BenchmarkId × Benchmark))) :
    List (BenchmarkId × Benchmark) :=
  match m.find? (fun e => decide (e.1 = k)) with
  | some e => e.2
  | none => []

/-- Keys in order of first encounter, relative to a set of already seen
keys. -/
def dedupSeen (seen : List (Option String)) : List (Option String) → List (Option String)
  | [] => []
  | a :: l => if a ∈ seen then dedupSeen seen l else a :: dedupSeen (a :: seen) l

/-- Keys of a list in order of first encounter. -/
def dedupKeepFirst (l : List (Option String)) : List (Option String) :=
  dedupSeen [] l

/-- Relation under which a Rust stable sort with comparator c keeps a before
b: b is not strictly below a according to c.  Here c is the line_comparison
comparator rustCmp on the x components. -/
def rLe (a b : F × ℚ) : Prop := rustCmp b.1 a.1 ≠ Ordering.lt

instance : DecidableRel rLe := fun a b => by
  unfold rLe
  infer_instance

/-- Embeds tuples.sort_by with the partial_cmp-unwrap_or(Less) comparator of
line_comparison in both backends (gnuplot_backend/summary.rs line 115,
plotters_backend/summary.rs line 164), written as the stable insertion sort:
this is literally what Rust performs on slices of at most twenty elements,
and extensionally what its documented stable sort yields whenever the
comparator is consistent, that is whenever every x is finite. -/
def sortTuples (l : List (F × ℚ)) : List (F × ℚ) :=
  List.insertionSort rLe l

/-- Pairs with a finite x component, as inputs of sortTuples. -/
def finPair (p : ℚ × ℚ) : F × ℚ := (F.fin p.1, p.2)

/-- Comparison of the finite x components. -/
def leQ (a b : ℚ × ℚ) : Prop := a.1 ≤ b.1

instance : DecidableRel leQ := fun a b => by
  unfold leQ
  infer_instance

instance : IsTotal (ℚ × ℚ) leQ := ⟨fun a b => le_total a.1 b.1⟩

instance : IsTrans (ℚ × ℚ) leQ := ⟨fun _ _ _ h1 h2 => le_trans h1 h2⟩

/-- Order on F under which only finite values are comparable. -/
def finLe : F → F → Prop
  | F.fin a, F.fin b => a ≤ b
  | _, _ => False

/-- Embeds the flat_map over the curves' support values followed by the
filter x > 0 (gnuplot_backend/summary.rs lines 168-171,
plotters_backend/summary.rs lines 198-201). -/
def positiveSupport (xss : List (List ℚ)) : List ℚ :=
  xss.flatten.filter (fun x => decide (0 < x))

/-- Embeds the min/max loop of violin in both backends
(gnuplot_backend/summary.rs lines 172-182, plotters_backend/summary.rs lines
202-212): one pass from the first value, updating min when e < min and
otherwise max when e > max. -/
def posMinMax (first : ℚ) (rest : List ℚ) : ℚ × ℚ :=
  rest.foldl
    (fun mm e => if e < mm.1 then (e, mm.2) else if mm.2 < e then (mm.1, e) else mm)
    (first, first)

/-- Sequences Option results over a list: the embedding of a loop of
unwraps, none as soon as any element panics. -/
def optList {α β : Type} (f : α → Option β) : List α → Option (List β)
  | [] => some []
  | a :: l =>
    match f a, optList f l with
    | some b, some r => some (b :: r)
    | _, _ => none

/-- Embeds latest_stats.estimates.get(&Statistic::Typical) ... point_estimate
as an Option, none when the Typical estimate is absent and the source unwrap
would panic. -/
def typicalOf (b : Benchmark) : Option ℚ :=
  (b.latest_stats.estimates Statistic.Typical).map Estimate.point_estimate

/-- Embeds the loop body that turns one grouped pair into an (x, y) tuple
(gnuplot_backend/summary.rs lines 101-114, plotters_backend/summary.rs lines
150-163): x is the unwrapped numeric id, y the unwrapped Typical point
estimate; none is the panic of either unwrap. -/
def lineGroupTuple (p : BenchmarkId × Benchmark) : Option (F × ℚ) :=
  match p.1.value, typicalOf p.2 with
  | some x, some y => some (x, y)
  | _, _ => none

/-- Embeds the per-group body of the line-comparison loop in both backends
(gnuplot_backend/summary.rs lines 99-135, plotters_backend/summary.rs lines
148-169): build the tuples, sort them by x, unzip, and scale the y sequence
with the multiplier resolved from the representative magnitude m. -/
def lineGroupSeries (fmt : ValueFormatter) (m : F)
    (g : Option String × List (BenchmarkId × Benchmark)) :
    Option (Option String × List F × List ℚ) :=
  match optList lineGroupTuple g.2 with
  | none => none
  | some tuples =>
    let sorted := sortTuples tuples
    some (g.1, sorted.map Prod.fst, (fmt.scale_values m (sorted.map Prod.snd)).2)

/-- Embeds f64::round: round half away from zero. -/
def rustRound (q : ℚ) : Int :=
  if q < 0 then -(Int.floor (-q + 1/2)) else Int.floor (q + 1/2)

/-- Embeds the saturating cast of a finite nonnegative-or-negative f64 to
usize: negative values clamp to zero; the upper clamp at usize::MAX is out
of reach here. -/
def usizeOfFloat (i : Int) : Nat := i.toNat

/-- Embeds connection::AxisScale, pure configuration. -/
inductive AxisScale where
  | Linear
  | Logarithmic

/-- Embeds report::ValueType, which controls an axis label suffix only. -/
inductive ValueType where
  | Bytes
  | Elements
  | Value

/-- Embeds the input_suffix match of line_comparison in both backends
(gnuplot_backend/summary.rs lines 49-53, plotters_backend/summary.rs lines
69-73). -/
def input_suffix : ValueType → String
  | ValueType.Bytes => " Size (Bytes)"
  | ValueType.Elements => " Size (Elements)"
  | ValueType.Value => ""

namespace GnuplotBackend

/-- Embeds the chart title of line_comparison
(gnuplot_backend/summary.rs line 62). -/
def line_title (title : String) : String :=
  escape_underscores title ++ ": Comparison"

/-- Embeds the chart title of violin (gnuplot_backend/summary.rs line
194). -/
def violin_title (title : String) : String :=
  escape_underscores title ++ ": Violin plot"

/-- Embeds the series data derived by line_comparison
(gnuplot_backend/summary.rs lines 68-136): the maximum Typical point
estimate over every benchmark, the unit and multiplier resolved from it, and
per group the sorted (x, y) tuples with the y values scaled.  The group key
is carried unescaped; line 119 escapes it only in the rendered label.
Returns none where the source unwraps a missing Typical estimate or a
non-numeric id. -/
def line_comparison_data (fmt : ValueFormatter) (l : List (BenchmarkId × Benchmark)) :
    Option (String × List (Option String × List F × List ℚ)) :=
  match optList (fun p => typicalOf p.2) l with
  | none => none
  | some typs =>
    let m := foldNanMax typs
    let unit := (fmt.scale_values m [1]).1
    match optList (lineGroupSeries fmt m) (groupByFn l) with
    | none => none
    | some series => some (unit, series)

/-- Embeds the reversed, normalized kde curves of violin
(gnuplot_backend/summary.rs lines 151-167).  The kernel density estimator
kde::sweep is a collaborator, passed as the function kde from a sample to
the pair of support values and densities; its fixed resolution and bandwidth
arguments are internal to it. -/
def violin_kdes (kde : List ℚ → List ℚ × List ℚ) (l : List (BenchmarkId × Benchmark)) :
    List (List ℚ × List ℚ) :=
  l.reverse.map (fun p =>
    let xy := kde p.2.latest_stats.avg_values
    (xy.1, normalizeCurve xy.2))

/-- Embeds violin (gnuplot_backend/summary.rs lines 142-233): unit and
multiplier resolved from the midpoint of the positive support range, and per
curve the scaled support values, the upper curve i + 0.5 + 0.45 y and the
lower curve i + 0.5 - 0.45 y.  Returns none where the source unwraps the
first element of an empty positive-support iterator. -/
def violin_chart (fmt : ValueFormatter) (kde : List ℚ → List ℚ × List ℚ)
    (l : List (BenchmarkId × Benchmark)) :
    Option (String × List (List ℚ × List ℚ × List ℚ)) :=
  let kdes := violin_kdes kde l
  match positiveSupport (kdes.map Prod.fst) with
  | [] => none
  | first :: rest =>
    let mm := posMinMax first rest
    let mid := F.fin ((mm.1 + mm.2) / 2)
    let one := fmt.factor mid
    let unit := (fmt.scale_values mid [1]).1
    some (unit, kdes.enum.map (fun ip =>
      (ip.2.1.map (fun xv => xv * one),
       ip.2.2.map (fun yv => ((ip.1 : ℚ) + 1/2) + yv * (45/100)),
       ip.2.2.map (fun yv => ((ip.1 : ℚ) + 1/2) - yv * (45/100)))))

end GnuplotBackend

namespace PlottersBackend

/-- Embeds the chart title of line_comparison
(plotters_backend/summary.rs line 38); note the source spelling and the
absence of underscore escaping. -/
def line_title (title : String) : String :=
  title ++ ": Comparision"

/-- Embeds the chart title of violin (plotters_backend/summary.rs line
226). -/
def violin_title (title : String) : String :=
  title ++ ": Violin plot"

/-- Embeds line_comparison_series_data (plotters_backend/summary.rs lines
118-171), whose data derivation coincides with the gnuplot one. -/
def line_comparison_series_data (fmt : ValueFormatter) (l : List (BenchmarkId × Benchmark)) :
    Option (String × List (Option String × List F × List ℚ)) :=
  match optList (fun p => typicalOf p.2) l with
  | none => none
  | some typs =>
    let m := foldNanMax typs
    let unit := (fmt.scale_values m [1]).1
    match optList (lineGroupSeries fmt m) (groupByFn l) with
    | none => none
    | some series => some (unit, series)

/-- Embeds the reversed, normalized kde curves of violin
(plotters_backend/summary.rs lines 180-196), keeping the id title of each
benchmark. -/
def violin_kdes (kde : List ℚ → List ℚ × List ℚ) (l : List (BenchmarkId × Benchmark)) :
    List (String × List ℚ × List ℚ) :=
  l.reverse.map (fun p =>
    let xy := kde p.2.latest_stats.avg_values
    (p.1.title, xy.1, normalizeCurve xy.2))

/-- Embeds violin (plotters_backend/summary.rs lines 173-235): unit and
multiplier resolved from the maximum of the positive support range, every
curve's support values scaled by that one multiplier.  Returns none where
the source unwraps the first element of an empty positive-support
iterator. -/
def violin_data (fmt : ValueFormatter) (kde : List ℚ → List ℚ × List ℚ)
    (l : List (BenchmarkId × Benchmark)) :
    Option (String × List (String × List ℚ × List ℚ)) :=
  let kdes := violin_kdes kde l
  match positiveSupport (kdes.map (fun c => c.2.1)) with
  | [] => none
  | first :: rest =>
    let mm := posMinMax first rest
    let unit := (fmt.scale_values (F.fin mm.2) [1]).1
    some (unit, kdes.map (fun c =>
      (c.1, (fmt.scale_values (F.fin mm.2) c.2.1).2, c.2.2)))

/-- Embeds the per-curve drawing of draw_violin_figure
(plotters_backend/summary.rs lines 263-281): for the curve of index i, the
baseline i, an upper area through the points (x, i + y/2) and a lower area
through the points (x, i - y/2). -/
def draw_violin_bands (data : List (String × List ℚ × List ℚ)) :
    List (ℚ × List (ℚ × ℚ) × List (ℚ × ℚ)) :=
  data.enum.map (fun ip =>
    ((ip.1 : ℚ),
     ip.2.2.1.zip (ip.2.2.2.map (fun yv => (ip.1 : ℚ) + yv / 2)),
     ip.2.2.1.zip (ip.2.2.2.map (fun yv => (ip.1 : ℚ) - yv / 2))))

/-- Embeds the violin chart of the plotters backend: the derived data of
violin fed to draw_violin_figure. -/
def violin_chart (fmt : ValueFormatter) (kde : List ℚ → List ℚ × List ℚ)
    (l : List (BenchmarkId × Benchmark)) :
    Option (String × List (ℚ × List (ℚ × ℚ) × List (ℚ × ℚ))) :=
  (violin_data fmt kde l).map (fun ud => (ud.1, draw_violin_bands ud.2))

/-- Embeds the y tick label formatter of draw_violin_figure
(plotters_backend/summary.rs line 258): data[v.round() as usize].0 over the
list of curve titles; none is the out-of-bounds panic. -/
def y_label_formatter (data : List String) (v : ℚ) : Option String :=
  data.get? (usizeOfFloat (rustRound v))

/-- Embeds the y range of the plotters violin chart
(plotters_backend/summary.rs line 220): -0.5 up to len - 0.5. -/
def violin_y_range (n : Nat) : ℚ × ℚ := (-(1/2 : ℚ), (n : ℚ) - 1/2)

end PlottersBackend

/-! Concrete fixtures used to evaluate the embedding at specific inputs. -/

/-- Formatter fixture with a constant unit and multiplier one. -/
def fmtA : ValueFormatter := { unitFor := fun _ => "s", factor := fun _ => 1 }

/-- Formatter fixture whose unit and multiplier depend on the magnitude:
below four the unit is milliseconds with multiplier 1000, otherwise seconds
with multiplier one. -/
def fmtB : ValueFormatter where
  unitFor := fun m =>
    match m with
    | F.fin q => if q < 4 then "ms" else "s"
    | F.nan => "?"
  factor := fun m =>
    match m with
    | F.fin q => if q < 4 then 1000 else 1
    | F.nan => 0

/-- Density estimator fixture: support [1], density [1]. -/
def kdeA : List ℚ → List ℚ × List ℚ := fun _ => ([1], [1])

/-- Density estimator fixture: support [1, 5], densities [2, 2]. -/
def kdeB : List ℚ → List ℚ × List ℚ := fun _ => ([1, 5], [2, 2])

/-- Density estimator fixture with no positive support value. -/
def kdeNeg : List ℚ → List ℚ × List ℚ := fun _ => ([-1], [1])

/-- Benchmark fixture with every estimate present, value ten. -/
def benchA : Benchmark := ⟨⟨fun _ => some ⟨10⟩, [1]⟩⟩

/-- Benchmark fixture whose Typical estimate is absent. -/
def benchNoTyp : Benchmark := ⟨⟨fun _ => none, [1]⟩⟩

/-- Benchmark fixture with every estimate present, value three. -/
def benchC : Benchmark := ⟨⟨fun _ => some ⟨3⟩, [2]⟩⟩

/-- Identifier fixture with function id f, numeric value one. -/
def idA : BenchmarkId := ⟨some "f", some (F.fin 1), "b"⟩

/-- Identifier fixture without a numeric value. -/
def idNoNum : BenchmarkId := ⟨some "f", none, "b"⟩

/-- Identifier fixture with function id f, numeric value two. -/
def idC : BenchmarkId := ⟨some "f", some (F.fin 2), "c"⟩

/-- One-benchmark input. -/
def lA : List (BenchmarkId × Benchmark) := [(idA, benchA)]

/-- Input whose identifier has no numeric value. -/
def lNoNum : List (BenchmarkId × Benchmark) := [(idNoNum, benchA)]

/-- Input whose record has no Typical estimate. -/
def lNoTyp : List (BenchmarkId × Benchmark) := [(idA, benchNoTyp)]

/-- Two-benchmark input for the unit-resolution witness. -/
def lC : List (BenchmarkId × Benchmark) := [(idA, benchA), (idC, benchC)]

/-! Helper lemmas about the grouping map. -/

lemma insertGroup_keys (k : Option String) (p : BenchmarkId × Benchmark) :
    ∀ m, (insertGroup k p m).map Prod.fst =
      if k ∈ m.map Prod.fst then m.map Prod.fst else m.map Prod.fst ++ [k]
  | [] => by simp [insertGroup]
  | e :: rest => by
    by_cases h : e.1 = k
    · simp [insertGroup, h]
    · have hne : ¬ k = e.1 := fun hk => h hk.symm
      simp only [insertGroup, if_neg h, List.map_cons, insertGroup_keys k p rest,
        List.mem_cons, hne, false_or]
      by_cases hm : k ∈ rest.map Prod.fst <;> simp [hm]

lemma lookupList_insert_self (k : Option String) (p : BenchmarkId × Benchmark) :
    ∀ m, lookupList k (insertGroup k p m) = lookupList k m ++ [p]
  | [] => by simp [insertGroup, lookupList, List.find?]
  | e :: rest => by
    by_cases h : e.1 = k
    · simp [insertGroup, lookupList, List.find?, h]
    · simp only [insertGroup, if_neg h, lookupList, List.find?, decide_eq_true_eq, h]
      simpa [lookupList] using lookupList_insert_self k p rest

lemma lookupList_insert_ne (k k2 : Option String) (p : BenchmarkId × Benchmark)
    (hne : k2 ≠ k) :
    ∀ m, lookupList k2 (insertGroup k p m) = lookupList k2 m
  | [] => by
    have h3 : ¬ k = k2 := fun hk => hne hk.symm
    simp [insertGroup, lookupList, List.find?, h3]
  | e :: rest => by
    by_cases h : e.1 = k
    · have h3 : ¬ k = k2 := fun hk => hne hk.symm
      simp [insertGroup, lookupList, List.find?, h, h3]
    · simp only [insertGroup, if_neg h, lookupList, List.find?]
      by_cases h2 : e.1 = k2
      · simp [h2]
      · simpa [lookupList, h2] using lookupList_insert_ne k k2 p hne rest

lemma dedupSeen_congr (s1 s2 : List (Option String)) (hs : ∀ a, a ∈ s1 ↔ a ∈ s2) :
    ∀ l, dedupSeen s1 l = dedupSeen s2 l
  | [] => rfl
  | a :: l => by
    by_cases h : a ∈ s1
    · simp only [dedupSeen, if_pos h, if_pos ((hs a).1 h)]
      exact dedupSeen_congr s1 s2 hs l
    · simp only [dedupSeen, if_neg h, if_neg (fun h2 => h ((hs a).2 h2))]
      refine congrArg (a :: ·) (dedupSeen_congr (a :: s1) (a :: s2) (fun b => ?_) l)
      simp [hs b]

lemma foldl_insertGroup_keys :
    ∀ (l : List (BenchmarkId × Benchmark)) (acc : List (Option String × List (BenchmarkId × Benchmark))),
      (l.foldl (fun m p => insertGroup p.1.function_id p m) acc).map Prod.fst =
        acc.map Prod.fst ++ dedupSeen (acc.map Prod.fst) (l.map fun p => p.1.function_id)
  | [], acc => by simp [dedupSeen]
  | p :: l, acc => by
    simp only [List.foldl_cons, List.map_cons]
    rw [foldl_insertGroup_keys l, insertGroup_keys]
    by_cases h : p.1.function_id ∈ acc.map Prod.fst
    · simp [dedupSeen, h]
    · rw [if_neg h]
      have hc : dedupSeen (acc.map Prod.fst ++ [p.1.function_id]) (l.map fun p => p.1.function_id) =
          dedupSeen (p.1.function_id :: acc.map Prod.fst) (l.map fun p => p.1.function_id) := by
        refine dedupSeen_congr _ _ (fun a => ?_) _
        simp [or_comm]
      simp [dedupSeen, h, hc]

lemma groupByFn_keys (l : List (BenchmarkId × Benchmark)) :
    (groupByFn l).map Prod.fst = dedupKeepFirst (l.map fun p => p.1.function_id) := by
  simpa [groupByFn, dedupKeepFirst] using foldl_insertGroup_keys l []

lemma foldl_insertGroup_lookup :
    ∀ (l : List (BenchmarkId × Benchmark)) (acc : List (Option String × List (BenchmarkId × Benchmark)))
      (k : Option String),
      lookupList k (l.foldl (fun m p => insertGroup p.1.function_id p m) acc) =
        lookupList k acc ++ l.filter (fun p => decide (p.1.function_id = k))
  | [], acc, k => by simp
  | p :: l, acc, k => by
    simp only [List.foldl_cons]
    rw [foldl_insertGroup_lookup l]
    by_cases h : p.1.function_id = k
    · rw [h, lookupList_insert_self, List.filter_cons]
      simp [h]
    · rw [lookupList_insert_ne _ _ _ (fun hk => h hk.symm), List.filter_cons]
      simp [h]

lemma groupByFn_lookup (l : List (BenchmarkId × Benchmark)) (k : Option String) :
    lookupList k (groupByFn l) = l.filter (fun p => decide (p.1.function_id = k)) := by
  simpa [groupByFn, lookupList] using foldl_insertGroup_lookup l [] k

lemma insertGroup_flatten_perm (k : Option String) (p : BenchmarkId × Benchmark) :
    ∀ m, ((insertGroup k p m).map Prod.snd).flatten.Perm
      ((m.map Prod.snd).flatten ++ [p])
  | [] => by simp [insertGroup]
  | e :: rest => by
    by_cases h : e.1 = k
    · simp only [insertGroup, if_pos h, List.map_cons, List.flatten_cons, List.append_assoc]
      exact List.Perm.append_left e.2 List.perm_append_comm
    · simp only [insertGroup, if_neg h, List.map_cons, List.flatten_cons, List.append_assoc]
      exact List.Perm.append_left e.2 (insertGroup_flatten_perm k p rest)

lemma foldl_insertGroup_flatten_perm :
    ∀ (l : List (BenchmarkId × Benchmark)) (acc : List (Option String × List (BenchmarkId × Benchmark))),
      ((l.foldl (fun m p => insertGroup p.1.function_id p m) acc).map Prod.snd).flatten.Perm
        ((acc.map Prod.snd).flatten ++ l)
  | [], acc => by simp
  | p :: l, acc => by
    simp only [List.foldl_cons]
    refine (foldl_insertGroup_flatten_perm l _).trans ?_
    have h1 := (insertGroup_flatten_perm p.1.function_id p acc).append_right l
    refine h1.trans ?_
    simp

lemma groupByFn_flatten_perm (l : List (BenchmarkId × Benchmark)) :
    ((groupByFn l).map Prod.snd).flatten.Perm l := by
  simpa [groupByFn] using foldl_insertGroup_flatten_perm l []

lemma mem_groupByFn_iff (l : List (BenchmarkId × Benchmark)) (p : BenchmarkId × Benchmark) :
    (∃ e ∈ groupByFn l, p ∈ e.2) ↔ p ∈ l := by
  rw [← (groupByFn_flatten_perm l).mem_iff, List.mem_flatten]
  constructor
  · rintro ⟨e, he, hp⟩
    exact ⟨e.2, List.mem_map_of_mem Prod.snd he, hp⟩
  · rintro ⟨ys, hys, hp⟩
    obtain ⟨e, he, rfl⟩ := List.mem_map.1 hys
    exact ⟨e, he, hp⟩

/-! Helper lemmas about optList, the embedding of loops of unwraps. -/

lemma optList_eq_none {α β : Type} (f : α → Option β) :
    ∀ (l : List α) (a : α), a ∈ l → f a = none → optList f l = none
  | b :: l, a, ha, hfa => by
    rcases List.mem_cons.1 ha with rfl | ha
    · simp [optList, hfa]
    · simp only [optList, optList_eq_none f l a ha hfa]
      cases f b <;> rfl

lemma optList_isSome {α β : Type} (f : α → Option β) :
    ∀ (l : List α), (∀ a ∈ l, (f a).isSome) → (optList f l).isSome
  | [], _ => by simp [optList]
  | a :: l, h => by
    have h1 := h a (List.mem_cons_self a l)
    have h2 := optList_isSome f l (fun b hb => h b (List.mem_cons_of_mem a hb))
    simp only [optList]
    obtain ⟨b, hb⟩ := Option.isSome_iff_exists.1 h1
    obtain ⟨r, hr⟩ := Option.isSome_iff_exists.1 h2
    simp [hb, hr]

lemma optList_mem_source {α β : Type} (f : α → Option β) :
    ∀ (l : List α) (r : List β), optList f l = some r → ∀ b ∈ r, ∃ a ∈ l, f a = some b
  | [], r, hr, b, hb => by
    simp only [optList, Option.some.injEq] at hr
    subst hr
    simp at hb
  | a :: l, r, hr, b, hb => by
    simp only [optList] at hr
    rcases hfa : f a with _ | c <;> rw [hfa] at hr
    · exact absurd hr (by simp)
    · rcases hol : optList f l with _ | r2 <;> rw [hol] at hr
      · exact absurd hr (by simp)
      · obtain rfl : c :: r2 = r := by simpa using hr
        rcases List.mem_cons.1 hb with rfl | hb
        · exact ⟨a, List.mem_cons_self a l, hfa⟩
        · obtain ⟨a2, ha2, hfa2⟩ := optList_mem_source f l r2 hol b hb
          exact ⟨a2, List.mem_cons_of_mem a ha2, hfa2⟩

lemma optList_mem_target {α β : Type} (f : α → Option β) :
    ∀ (l : List α) (r : List β), optList f l = some r →
      ∀ a ∈ l, ∀ b, f a = some b → b ∈ r
  | [], r, hr, a, ha, b, hb => by simp at ha
  | a2 :: l, r, hr, a, ha, b, hb => by
    simp only [optList] at hr
    rcases hfa : f a2 with _ | c <;> rw [hfa] at hr
    · exact absurd hr (by simp)
    · rcases hol : optList f l with _ | r2 <;> rw [hol] at hr
      · exact absurd hr (by simp)
      · obtain rfl : c :: r2 = r := by simpa using hr
        rcases List.mem_cons.1 ha with rfl | ha
        · rw [hfa] at hb
          obtain rfl : c = b := Option.some_injective β hb
          exact List.mem_cons_self _ _
        · exact List.mem_cons_of_mem c (optList_mem_target f l r2 hol a ha b hb)

lemma optList_map_eq {α β : Type} (f : α → Option β) (g : α → β) :
    ∀ (l : List α), (∀ a ∈ l, f a = some (g a)) → optList f l = some (l.map g)
  | [], _ => rfl
  | a :: l, h => by
    have h1 := h a (List.mem_cons_self a l)
    have h2 := optList_map_eq f g l (fun b hb => h b (List.mem_cons_of_mem a hb))
    simp [optList, h1, h2]

lemma optList_length {α β : Type} (f : α → Option β) :
    ∀ (l : List α) (r : List β), optList f l = some r → r.length = l.length
  | [], r, hr => by simp only [optList, Option.some.injEq] at hr; simp [← hr]
  | a :: l, r, hr => by
    simp only [optList] at hr
    rcases hfa : f a with _ | c <;> rw [hfa] at hr
    · exact absurd hr (by simp)
    · rcases hol : optList f l with _ | r2 <;> rw [hol] at hr
      · exact absurd hr (by simp)
      · obtain rfl : c :: r2 = r := by simpa using hr
        simp [optList_length f l r2 hol]

/-! Helper lemmas about maxima: the NaN-seeded fold, Sample::max and the
violin min/max loop. -/

lemma foldl_max_facts :
    ∀ (l : List ℚ) (q : ℚ),
      q ≤ l.foldl max q ∧ (∀ x ∈ l, x ≤ l.foldl max q) ∧ l.foldl max q ∈ q :: l
  | [], q => by simp
  | a :: l, q => by
    obtain ⟨h1, h2, h3⟩ := foldl_max_facts l (max q a)
    refine ⟨le_trans (le_max_left q a) h1, ?_, ?_⟩
    · intro x hx
      rcases List.mem_cons.1 hx with rfl | hx
      · exact le_trans (le_max_right q x) h1
      · exact h2 x hx
    · rw [List.foldl_cons, List.mem_cons, List.mem_cons]
      rcases List.mem_cons.1 h3 with h | h
      · rw [h]
        rcases max_choice q a with hm | hm
        · exact Or.inl hm
        · exact Or.inr (Or.inl hm)
      · exact Or.inr (Or.inr h)

lemma foldNanMax_fin :
    ∀ (l : List ℚ) (q : ℚ),
      l.foldl (fun acc t => fmaxF acc (F.fin t)) (F.fin q) = F.fin (l.foldl max q)
  | [], q => rfl
  | a :: l, q => by
    simp only [List.foldl_cons, fmaxF]
    exact foldNanMax_fin l (max q a)

lemma foldNanMax_spec (l : List ℚ) (hl : l ≠ []) :
    ∃ M, foldNanMax l = F.fin M ∧ M ∈ l ∧ ∀ x ∈ l, x ≤ M := by
  rcases l with _ | ⟨a, l⟩
  · exact absurd rfl hl
  · refine ⟨l.foldl max a, ?_, ?_, ?_⟩
    · simp only [foldNanMax, List.foldl_cons]
      exact foldNanMax_fin l a
    · exact (foldl_max_facts l a).2.2
    · intro x hx
      rcases List.mem_cons.1 hx with rfl | hx
      · exact (foldl_max_facts l x).1
      · exact (foldl_max_facts l a).2.1 x hx

lemma le_sampleMax (l : List ℚ) (v : ℚ) (hv : v ∈ l) : v ≤ sampleMax l := by
  rcases l with _ | ⟨a, l⟩
  · simp at hv
  · rcases List.mem_cons.1 hv with rfl | hv
    · exact (foldl_max_facts l v).1
    · exact (foldl_max_facts l a).2.1 v hv

lemma sampleMax_mem (l : List ℚ) (hl : l ≠ []) : sampleMax l ∈ l := by
  rcases l with _ | ⟨a, l⟩
  · exact absurd rfl hl
  · exact (foldl_max_facts l a).2.2

lemma foldl_max_map_div (m : ℚ) (hm : 0 < m) :
    ∀ (l : List ℚ) (q : ℚ),
      (l.map (fun v => v / m)).foldl max (q / m) = l.foldl max q / m
  | [], q => rfl
  | a :: l, q => by
    simp only [List.map_cons, List.foldl_cons, max_div_div_right hm.le]
    exact foldl_max_map_div m hm l (max q a)

lemma sampleMax_normalizeCurve (y : List ℚ) (hy : 0 < sampleMax y) :
    sampleMax (normalizeCurve y) = 1 := by
  rcases y with _ | ⟨a, l⟩
  · simp [sampleMax] at hy
  · have hy2 : 0 < List.foldl max a l := hy
    simp only [normalizeCurve, sampleMax, List.map_cons]
    rw [foldl_max_map_div _ hy2 l a]
    exact div_self (ne_of_gt hy2)

lemma normalizeCurve_bounds (y : List ℚ) (hy : ∀ v ∈ y, 0 ≤ v) :
    ∀ v ∈ normalizeCurve y, 0 ≤ v ∧ v ≤ 1 := by
  intro v hv
  obtain ⟨w, hw, rfl⟩ := List.mem_map.1 hv
  have hw0 : 0 ≤ w := hy w hw
  have hwm : w ≤ sampleMax y := le_sampleMax y w hw
  rcases lt_or_le 0 (sampleMax y) with hm | hm
  · exact ⟨div_nonneg hw0 hm.le, (div_le_one hm).2 hwm⟩
  · have : w = 0 := le_antisymm (hwm.trans hm) hw0
    simp [this]

lemma posMinMax_go :
    ∀ (rest : List ℚ) (mn mx : ℚ), mn ≤ mx →
      (rest.foldl
        (fun mm e => if e < mm.1 then (e, mm.2) else if mm.2 < e then (mm.1, e) else mm)
        (mn, mx)).1 ≤ mn ∧
      mx ≤ (rest.foldl
        (fun mm e => if e < mm.1 then (e, mm.2) else if mm.2 < e then (mm.1, e) else mm)
        (mn, mx)).2 ∧
      (∀ x ∈ rest,
        (rest.foldl
          (fun mm e => if e < mm.1 then (e, mm.2) else if mm.2 < e then (mm.1, e) else mm)
          (mn, mx)).1 ≤ x ∧
        x ≤ (rest.foldl
          (fun mm e => if e < mm.1 then (e, mm.2) else if mm.2 < e then (mm.1, e) else mm)
          (mn, mx)).2) ∧
      (rest.foldl
        (fun mm e => if e < mm.1 then (e, mm.2) else if mm.2 < e then (mm.1, e) else mm)
        (mn, mx)).1 ∈ mn :: rest ∧
      (rest.foldl
        (fun mm e => if e < mm.1 then (e, mm.2) else if mm.2 < e then (mm.1, e) else mm)
        (mn, mx)).2 ∈ mx :: rest
  | [], mn, mx, h => by simp [h]
  | e :: rest, mn, mx, h => by
    simp only [List.foldl_cons]
    by_cases h1 : e < mn
    · obtain ⟨g1, g2, g3, g4, g5⟩ := posMinMax_go rest e mx (h1.le.trans h)
      rw [if_pos h1]
      refine ⟨g1.trans h1.le, g2, ?_, ?_, ?_⟩
      · intro x hx
        rcases List.mem_cons.1 hx with rfl | hx
        · exact ⟨g1, le_trans (h1.le.trans h) g2⟩
        · exact g3 x hx
      · rcases List.mem_cons.1 g4 with hg | hg <;> simp [hg]
      · rcases List.mem_cons.1 g5 with hg | hg <;> simp [hg]
    · rw [if_neg h1]
      push_neg at h1
      by_cases h2 : mx < e
      · obtain ⟨g1, g2, g3, g4, g5⟩ := posMinMax_go rest mn e (h.trans h2.le)
        rw [if_pos h2]
        refine ⟨g1, h2.le.trans g2, ?_, ?_, ?_⟩
        · intro x hx
          rcases List.mem_cons.1 hx with rfl | hx
          · exact ⟨g1.trans h1, g2⟩
          · exact g3 x hx
        · rcases List.mem_cons.1 g4 with hg | hg <;> simp [hg]
        · rcases List.mem_cons.1 g5 with hg | hg <;> simp [hg]
      · obtain ⟨g1, g2, g3, g4, g5⟩ := posMinMax_go rest mn mx h
        rw [if_neg h2]
        push_neg at h2
        refine ⟨g1, g2, ?_, ?_, ?_⟩
        · intro x hx
          rcases List.mem_cons.1 hx with rfl | hx
          · exact ⟨g1.trans h1, h2.trans g2⟩
          · exact g3 x hx
        · rcases List.mem_cons.1 g4 with hg | hg <;> simp [hg]
        · rcases List.mem_cons.1 g5 with hg | hg <;> simp [hg]

lemma posMinMax_spec (first : ℚ) (rest : List ℚ) :
    (posMinMax first rest).1 ∈ first :: rest ∧
    (posMinMax first rest).2 ∈ first :: rest ∧
    (∀ x ∈ first :: rest, (posMinMax first rest).1 ≤ x ∧ x ≤ (posMinMax first rest).2) := by
  obtain ⟨g1, g2, g3, g4, g5⟩ := posMinMax_go rest first first le_rfl
  refine ⟨?_, ?_, ?_⟩
  · rcases List.mem_cons.1 g4 with hg | hg <;> simp [posMinMax, hg]
  · rcases List.mem_cons.1 g5 with hg | hg <;> simp [posMinMax, hg]
  · intro x hx
    rcases List.mem_cons.1 hx with rfl | hx
    · exact ⟨g1, g2⟩
    · exact g3 x hx

/-! Helper lemmas about the sort of line_comparison. -/

lemma qcmp_self (c : ℚ) : qcmp c c = Ordering.eq := by
  simp [qcmp]

lemma qcmp_eq_lt_iff (a b : ℚ) : qcmp a b = Ordering.lt ↔ a < b := by
  unfold qcmp
  split_ifs with h1 h2 <;> simp [h1]

lemma rLe_finPair (a b : ℚ × ℚ) : rLe (finPair a) (finPair b) ↔ leQ a b := by
  unfold rLe leQ
  have h : rustCmp (finPair b).1 (finPair a).1 = qcmp b.1 a.1 := rfl
  rw [h, Ne, qcmp_eq_lt_iff, not_lt]

lemma orderedInsert_map_finPair (a : ℚ × ℚ) :
    ∀ l : List (ℚ × ℚ),
      List.orderedInsert rLe (finPair a) (l.map finPair) =
        (List.orderedInsert leQ a l).map finPair
  | [] => rfl
  | b :: l => by
    simp only [List.map_cons, List.orderedInsert]
    by_cases h : leQ a b
    · rw [if_pos ((rLe_finPair a b).2 h), if_pos h]
      simp
    · rw [if_neg (fun hc => h ((rLe_finPair a b).1 hc)), if_neg h]
      simp [orderedInsert_map_finPair a l]

lemma insertionSort_map_finPair :
    ∀ l : List (ℚ × ℚ),
      List.insertionSort rLe (l.map finPair) = (List.insertionSort leQ l).map finPair
  | [] => rfl
  | a :: l => by
    simp only [List.map_cons, List.insertionSort, insertionSort_map_finPair l]
    exact orderedInsert_map_finPair a (List.insertionSort leQ l)

lemma sortTuples_pairwise_finLe (l : List (ℚ × ℚ)) :
    List.Pairwise (fun p q2 : F × ℚ => finLe p.1 q2.1) (sortTuples (l.map finPair)) := by
  rw [sortTuples, insertionSort_map_finPair l, List.pairwise_map]
  have hs := List.sorted_insertionSort leQ l
  exact hs.imp (fun h => h)

lemma filter_orderedInsert_pos (q : F × ℚ → Bool) (a : F × ℚ)
    (ha : q a = true) (hq : ∀ b, q b = true → rLe a b) :
    ∀ l, List.filter q (List.orderedInsert rLe a l) = a :: List.filter q l
  | [] => by simp [ha]
  | b :: l => by
    by_cases h : rLe a b
    · simp [List.orderedInsert, if_pos h, List.filter_cons, ha]
    · have hb : q b = false := by
        cases hqb : q b
        · rfl
        · exact absurd (hq b hqb) h
      simp only [List.orderedInsert, if_neg h, List.filter_cons, hb, Bool.false_eq_true,
        if_false]
      exact filter_orderedInsert_pos q a ha hq l

lemma filter_orderedInsert_neg (q : F × ℚ → Bool) (a : F × ℚ) (ha : q a = false) :
    ∀ l, List.filter q (List.orderedInsert rLe a l) = List.filter q l
  | [] => by simp [ha]
  | b :: l => by
    by_cases h : rLe a b
    · simp [List.orderedInsert, if_pos h, List.filter_cons, ha]
    · simp only [List.orderedInsert, if_neg h, List.filter_cons]
      rw [filter_orderedInsert_neg q a ha l]

lemma sortTuples_filter_stable (c : ℚ) :
    ∀ l : List (F × ℚ),
      List.filter (fun p => decide (p.1 = F.fin c)) (sortTuples l) =
        List.filter (fun p => decide (p.1 = F.fin c)) l
  | [] => rfl
  | a :: l => by
    simp only [sortTuples, List.insertionSort]
    have ih := sortTuples_filter_stable c l
    rw [sortTuples] at ih
    by_cases ha : a.1 = F.fin c
    · have hq : ∀ b : F × ℚ, decide (b.1 = F.fin c) = true → rLe a b := by
        intro b hb
        have hb2 : b.1 = F.fin c := of_decide_eq_true hb
        unfold rLe
        rw [hb2, ha]
        simp [rustCmp, pcmpF, qcmp_self]
      rw [filter_orderedInsert_pos _ a (by simpa using ha) hq, ih, List.filter_cons]
      simp [ha]
    · rw [filter_orderedInsert_neg _ a (by simpa using ha), ih, List.filter_cons]
      simp [ha]

/-! Helper lemmas about the per-group series builder. -/

lemma scale_values_snd (fmt : ValueFormatter) (m : F) (vs : List ℚ) :
    (fmt.scale_values m vs).2 = vs.map (fun v => v * fmt.factor m) := rfl

lemma lineGroupSeries_eq_some (fmt : ValueFormatter) (m : F)
    (g : Option String × List (BenchmarkId × Benchmark))
    (s : Option String × List F × List ℚ)
    (hs : lineGroupSeries fmt m g = some s) :
    ∃ tuples, optList lineGroupTuple g.2 = some tuples ∧
      s = (g.1, (sortTuples tuples).map Prod.fst,
        ((sortTuples tuples).map Prod.snd).map (fun y => y * fmt.factor m)) := by
  unfold lineGroupSeries at hs
  rcases h : optList lineGroupTuple g.2 with _ | tuples <;> rw [h] at hs
  · exact absurd hs (by simp)
  · exact ⟨tuples, rfl, (Option.some_injective _ hs).symm⟩

lemma lineGroupSeries_isSome (fmt : ValueFormatter) (m : F)
    (g : Option String × List (BenchmarkId × Benchmark))
    (h : ∀ p ∈ g.2, (p.1.value).isSome ∧ (typicalOf p.2).isSome) :
    (lineGroupSeries fmt m g).isSome := by
  have ht : (optList lineGroupTuple g.2).isSome := by
    refine optList_isSome _ _ (fun p hp => ?_)
    obtain ⟨h1, h2⟩ := h p hp
    obtain ⟨x, hx⟩ := Option.isSome_iff_exists.1 h1
    obtain ⟨y, hy⟩ := Option.isSome_iff_exists.1 h2
    simp [lineGroupTuple, hx, hy]
  obtain ⟨tuples, htp⟩ := Option.isSome_iff_exists.1 ht
  simp [lineGroupSeries, htp]

lemma lineGroupTuple_none_left (p : BenchmarkId × Benchmark)
    (h : p.1.value = none) : lineGroupTuple p = none := by
  rcases ht : typicalOf p.2 with _ | y <;> simp [lineGroupTuple, h, ht]

/-! The claims. -/

/-- Claim C4: grouping maps each function identifier, in the order the
identifiers were first encountered, to the sub-list of its (identifier,
record) pairs in input order; every input pair lands in the group of its own
key and the groups concatenated are a permutation of the input, so nothing
is dropped or deduplicated. -/
theorem C4_grouping (l : List (BenchmarkId × Benchmark)) :
    (groupByFn l).map Prod.fst = dedupKeepFirst (l.map fun p => p.1.function_id) ∧
    (∀ k, lookupList k (groupByFn l) =
      l.filter (fun p => decide (p.1.function_id = k))) ∧
    ((groupByFn l).map Prod.snd).flatten.Perm l :=
  ⟨groupByFn_keys l, fun k => groupByFn_lookup l k, groupByFn_flatten_perm l⟩

/-- Counterexample for claim C5: a NaN x does not sort as least.  With the
NaN pair first in the input, the sort moves it last, because the comparator
answers Less for every incomparable pair, whichever side the NaN is on. -/
theorem C5_counterexample :
    (sortTuples [(F.nan, 1), (F.fin 5, 2)]).map Prod.fst = [F.fin 5, F.nan] ∧
    [F.fin 5, F.nan] ≠ [F.nan, F.fin 5] := by
  constructor
  · simp [sortTuples, List.insertionSort, List.orderedInsert, rLe, rustCmp, pcmpF]
  · simp

/-- Claim C5 (amended): for a group whose x values are all numeric (no NaN),
the sort returns a permutation of the pairs that is non-decreasing in x and
stable: pairs of equal x keep their encounter order; the parallel x and y
sequences have equal length.  When an x is NaN the comparator maps every
incomparable pair to Less, which does not sort the NaN first. -/
theorem C5_sort_sorted_stable (l : List (ℚ × ℚ)) :
    List.Pairwise (fun p q2 : F × ℚ => finLe p.1 q2.1) (sortTuples (l.map finPair)) ∧
    (sortTuples (l.map finPair)).Perm (l.map finPair) ∧
    (∀ c : ℚ,
      List.filter (fun p => decide (p.1 = F.fin c)) (sortTuples (l.map finPair)) =
        List.filter (fun p => decide (p.1 = F.fin c)) (l.map finPair)) ∧
    ((sortTuples (l.map finPair)).map Prod.fst).length =
      ((sortTuples (l.map finPair)).map Prod.snd).length :=
  ⟨sortTuples_pairwise_finLe l,
   by simpa [sortTuples] using List.perm_insertionSort rLe (l.map finPair),
   fun c => sortTuples_filter_stable c (l.map finPair),
   by simp⟩

/-- Claim C6: each density value is divided by its own curve's maximum: when
the raw curve has a positive maximum the normalized curve's maximum is
exactly one, and in both backends the normalized curve of a benchmark is a
function of that benchmark's raw curve alone. -/
theorem C6_normalization (y : List ℚ) (hy : 0 < sampleMax y) :
    sampleMax (normalizeCurve y) = 1 ∧
    normalizeCurve y = y.map (fun v => v / sampleMax y) ∧
    (∀ (kde : List ℚ → List ℚ × List ℚ) (l : List (BenchmarkId × Benchmark)),
      GnuplotBackend.violin_kdes kde l =
        l.reverse.map (fun p =>
          ((kde p.2.latest_stats.avg_values).1,
           normalizeCurve (kde p.2.latest_stats.avg_values).2)) ∧
      PlottersBackend.violin_kdes kde l =
        l.reverse.map (fun p =>
          (p.1.title, (kde p.2.latest_stats.avg_values).1,
           normalizeCurve (kde p.2.latest_stats.avg_values).2))) :=
  ⟨sampleMax_normalizeCurve y hy, rfl, fun _ _ => ⟨rfl, rfl⟩⟩

/-- Witness for C6 at the concrete curve [1, 2]. -/
theorem C6_normalization_witness :
    0 < sampleMax [1, 2] ∧ sampleMax (normalizeCurve [1, 2]) = 1 :=
  ⟨by norm_num [sampleMax], (C6_normalization [1, 2] (by norm_num [sampleMax])).1⟩

/-- Counterexample for claim C9: the plotters backend titles its line chart
with the raw unescaped title and the spelling Comparision, not the escaped
title with Comparison, and its violin title is also unescaped. -/
theorem C9_counterexample :
    PlottersBackend.line_title "a_b" = "a_b: Comparision" ∧
    PlottersBackend.line_title "a_b" ≠ escape_underscores "a_b" ++ ": Comparison" ∧
    PlottersBackend.violin_title "a_b" ≠ escape_underscores "a_b" ++ ": Violin plot" := by
  refine ⟨rfl, ?_, ?_⟩ <;> decide

/-- Claim C9 (amended): the gnuplot backend titles its charts with the
underscore-escaped title and the suffixes Comparison and Violin plot; the
plotters backend uses the raw title unescaped, with the misspelled suffix
Comparision on the line chart and Violin plot on the violin chart. -/
theorem C9_titles (t : String) :
    GnuplotBackend.line_title t = escape_underscores t ++ ": Comparison" ∧
    GnuplotBackend.violin_title t = escape_underscores t ++ ": Violin plot" ∧
    PlottersBackend.line_title t = t ++ ": Comparision" ∧
    PlottersBackend.violin_title t = t ++ ": Violin plot" :=
  ⟨rfl, rfl, rfl, rfl⟩

/-- Counterexample for claim C10: at the tick v = -0.5, the lower limit of
the y range, the lookup is in bounds even though round(v) = -1 < 0, because
the cast to usize saturates; being in bounds does not require
0 <= round(v). -/
theorem C10_counterexample :
    PlottersBackend.y_label_formatter ["a"] (-(1/2)) = some "a" ∧
    rustRound (-(1/2)) < 0 := by
  constructor
  · norm_num [PlottersBackend.y_label_formatter, usizeOfFloat, rustRound]
  · norm_num [rustRound]

/-- Claim C10 (amended): the y tick lookup of the plotters violin figure is
in bounds exactly when round(v) < n, where n is the number of benchmarks:
the usize cast saturates a negative rounding to index zero, and any tick
with round(v) = n, such as v = n - 0.5, the upper limit of the y range,
indexes out of bounds and the call panics. -/
theorem C10_y_label_lookup (data : List String) (v : ℚ) (h : 1 ≤ data.length) :
    ((PlottersBackend.y_label_formatter data v).isSome ↔
      rustRound v < (data.length : Int)) ∧
    (v = (PlottersBackend.violin_y_range data.length).2 →
      PlottersBackend.y_label_formatter data v = none) := by
  constructor
  · unfold PlottersBackend.y_label_formatter usizeOfFloat
    rw [List.get?_eq_getElem?, Option.isSome_iff_ne_none]
    rcases le_or_lt 0 (rustRound v) with hr | hr
    · simp only [Ne, List.getElem?_eq_none_iff, not_le]
      exact ⟨fun hlt => (Int.toNat_lt hr).1 hlt, fun hlt => (Int.toNat_lt hr).2 hlt⟩
    · rw [Int.toNat_of_nonpos hr.le]
      simp only [Ne, List.getElem?_eq_none_iff, not_le]
      constructor
      · intro _
        exact hr.trans_le (by exact_mod_cast Nat.zero_le data.length)
      · intro _
        omega
  · intro hv
    have hround : rustRound v = (data.length : Int) := by
      unfold PlottersBackend.violin_y_range at hv
      rw [hv]
      unfold rustRound
      rw [if_neg]
      · norm_num
      · push_neg
        have : (1 : ℚ) ≤ (data.length : ℚ) := by exact_mod_cast h
        linarith
    unfold PlottersBackend.y_label_formatter usizeOfFloat
    rw [hround]
    simp

/-- Witness for C10 with two benchmarks at the tick 1.5. -/
theorem C10_y_label_lookup_witness :
    1 ≤ (["a", "b"] : List String).length ∧
    (((PlottersBackend.y_label_formatter ["a", "b"] (3/2)).isSome ↔
        rustRound (3/2) < ((["a", "b"] : List String).length : Int)) ∧
      ((3/2 : ℚ) = (PlottersBackend.violin_y_range (["a", "b"] : List String).length).2 →
        PlottersBackend.y_label_formatter ["a", "b"] (3/2) = none)) :=
  ⟨by norm_num, C10_y_label_lookup ["a", "b"] (3/2) (by norm_num)⟩

/-! Cross-backend helper lemmas. -/

lemma line_data_eq (fmt : ValueFormatter) (l : List (BenchmarkId × Benchmark)) :
    GnuplotBackend.line_comparison_data fmt l =
      PlottersBackend.line_comparison_series_data fmt l := rfl

lemma violin_kdes_proj (kde : List ℚ → List ℚ × List ℚ)
    (l : List (BenchmarkId × Benchmark)) :
    (PlottersBackend.violin_kdes kde l).map (fun c => c.2.1) =
      (GnuplotBackend.violin_kdes kde l).map Prod.fst := by
  unfold PlottersBackend.violin_kdes GnuplotBackend.violin_kdes
  simp [List.map_map, Function.comp]

lemma violin_kdes_strip (kde : List ℚ → List ℚ × List ℚ)
    (l : List (BenchmarkId × Benchmark)) :
    (PlottersBackend.violin_kdes kde l).map (fun c => (c.2.1, c.2.2)) =
      GnuplotBackend.violin_kdes kde l := by
  unfold PlottersBackend.violin_kdes GnuplotBackend.violin_kdes
  simp [List.map_map, Function.comp]

/-- Claim C7: for a line-comparison chart whose records all carry a Typical
estimate and whose ids are all numeric, the representative magnitude handed
to the unit resolver is the maximum Typical point estimate over all
benchmarks — equivalently over all groups, whose concatenation is a
permutation of the input — and the single multiplier derived from it is
applied to every group's y sequence: no series is scaled independently. -/
theorem C7_shared_unit (fmt : ValueFormatter) (l : List (BenchmarkId × Benchmark))
    (h1 : ∀ p ∈ l, (typicalOf p.2).isSome)
    (h2 : ∀ p ∈ l, (p.1.value).isSome)
    (hne : l ≠ []) :
    ∃ M series,
      PlottersBackend.line_comparison_series_data fmt l =
        some (fmt.unitFor (F.fin M), series) ∧
      (∃ p ∈ l, typicalOf p.2 = some M) ∧
      (∀ p ∈ l, ∀ y, typicalOf p.2 = some y → y ≤ M) ∧
      (∀ s ∈ series, ∃ raw : List ℚ,
        s.2.2 = raw.map (fun y => y * fmt.factor (F.fin M))) ∧
      ((groupByFn l).map Prod.snd).flatten.Perm l := by
  obtain ⟨typs, htyps⟩ := Option.isSome_iff_exists.1 (optList_isSome _ l h1)
  have htne : typs ≠ [] := by
    intro h0
    apply hne
    have hlen := optList_length _ l typs htyps
    rw [h0] at hlen
    exact List.length_eq_zero.1 hlen.symm
  obtain ⟨M, hM, hMmem, hMmax⟩ := foldNanMax_spec typs htne
  have hgs : ∀ g ∈ groupByFn l, (lineGroupSeries fmt (foldNanMax typs) g).isSome := by
    intro g hg
    refine lineGroupSeries_isSome _ _ _ (fun p hp => ?_)
    have hpl : p ∈ l := (mem_groupByFn_iff l p).1 ⟨g, hg, hp⟩
    exact ⟨h2 p hpl, h1 p hpl⟩
  obtain ⟨series, hseries⟩ := Option.isSome_iff_exists.1 (optList_isSome _ _ hgs)
  refine ⟨M, series, ?_, ?_, ?_, ?_, groupByFn_flatten_perm l⟩
  · unfold PlottersBackend.line_comparison_series_data
    rw [htyps]
    simp only [hseries, ValueFormatter.scale_values]
    rw [hM]
  · obtain ⟨p, hp, hfp⟩ := optList_mem_source _ l typs htyps M hMmem
    exact ⟨p, hp, hfp⟩
  · intro p hp y hy
    exact hMmax y (optList_mem_target _ l typs htyps p hp y hy)
  · intro s hs
    obtain ⟨g, hg, hgsome⟩ := optList_mem_source _ (groupByFn l) series hseries s hs
    obtain ⟨tuples, _, hseq⟩ := lineGroupSeries_eq_some fmt (foldNanMax typs) g s hgsome
    refine ⟨(sortTuples tuples).map Prod.snd, ?_⟩
    rw [hseq]
    simp [hM]

/-- Witness for C7 at a two-benchmark input with Typical estimates ten and
three in one group. -/
theorem C7_shared_unit_witness :
    (∀ p ∈ lC, (typicalOf p.2).isSome) ∧ (∀ p ∈ lC, (p.1.value).isSome) ∧ lC ≠ [] ∧
    (∃ M series,
      PlottersBackend.line_comparison_series_data fmtB lC =
        some (fmtB.unitFor (F.fin M), series) ∧
      (∃ p ∈ lC, typicalOf p.2 = some M) ∧
      (∀ p ∈ lC, ∀ y, typicalOf p.2 = some y → y ≤ M) ∧
      (∀ s ∈ series, ∃ raw : List ℚ,
        s.2.2 = raw.map (fun y => y * fmtB.factor (F.fin M))) ∧
      ((groupByFn lC).map Prod.snd).flatten.Perm lC) :=
  ⟨by decide, by decide, by simp [lC],
   C7_shared_unit fmtB lC (by decide) (by decide) (by simp [lC])⟩

/-- Claim C8: a line-comparison call on an input with a missing Typical
estimate or a non-numeric id fails fatally in both backends, and a violin
call whose curves contain no positive support value fails fatally in both
backends; the failed call yields no chart data (none embeds the panic). -/
theorem C8_fatal_preconditions (fmt : ValueFormatter)
    (kde : List ℚ → List ℚ × List ℚ) (l : List (BenchmarkId × Benchmark)) :
    ((∃ p ∈ l, typicalOf p.2 = none ∨ p.1.value = none) →
      PlottersBackend.line_comparison_series_data fmt l = none ∧
      GnuplotBackend.line_comparison_data fmt l = none) ∧
    ((∀ p ∈ l, ∀ x ∈ (kde p.2.latest_stats.avg_values).1, x ≤ 0) →
      GnuplotBackend.violin_chart fmt kde l = none ∧
      PlottersBackend.violin_data fmt kde l = none ∧
      PlottersBackend.violin_chart fmt kde l = none) := by
  constructor
  · rintro ⟨p, hp, hcase | hcase⟩
    · have h0 : optList (fun p => typicalOf p.2) l = none :=
        optList_eq_none _ l p hp hcase
      constructor
      · unfold PlottersBackend.line_comparison_series_data
        rw [h0]
      · unfold GnuplotBackend.line_comparison_data
        rw [h0]
    · have hplotters : PlottersBackend.line_comparison_series_data fmt l = none := by
        unfold PlottersBackend.line_comparison_series_data
        rcases htyps : optList (fun p => typicalOf p.2) l with _ | typs
        · rw [htyps]
        · obtain ⟨g, hg, hpg⟩ := (mem_groupByFn_iff l p).2 hp
          have hgnone : lineGroupSeries fmt (foldNanMax typs) g = none := by
            unfold lineGroupSeries
            rw [optList_eq_none lineGroupTuple g.2 p hpg (lineGroupTuple_none_left p hcase)]
          have houter :
              optList (lineGroupSeries fmt (foldNanMax typs)) (groupByFn l) = none :=
            optList_eq_none _ _ g hg hgnone
          simp only [htyps, houter]
      exact ⟨hplotters, (line_data_eq fmt l).trans hplotters⟩
  · intro hx
    have hpos : positiveSupport ((GnuplotBackend.violin_kdes kde l).map Prod.fst) = [] := by
      unfold positiveSupport
      rw [List.filter_eq_nil_iff]
      intro a ha
      rw [List.mem_flatten] at ha
      obtain ⟨xs, hxs, hax⟩ := ha
      rw [List.mem_map] at hxs
      obtain ⟨c, hc, rfl⟩ := hxs
      unfold GnuplotBackend.violin_kdes at hc
      rw [List.mem_map] at hc
      obtain ⟨p, hpl, rfl⟩ := hc
      have hmem : a ∈ (kde p.2.latest_stats.avg_values).1 := by simpa using hax
      have hle := hx p (List.mem_reverse.1 hpl) a hmem
      simpa using not_lt.2 hle
    have hg : GnuplotBackend.violin_chart fmt kde l = none := by
      unfold GnuplotBackend.violin_chart
      simp only [hpos]
    have hp : PlottersBackend.violin_data fmt kde l = none := by
      unfold PlottersBackend.violin_data
      simp only [violin_kdes_proj, hpos]
    refine ⟨hg, hp, ?_⟩
    unfold PlottersBackend.violin_chart
    rw [hp]
    rfl

/-- Witness for C8: a missing numeric id makes the line chart fail, and an
all-negative support makes the violin chart fail. -/
theorem C8_fatal_preconditions_witness :
    PlottersBackend.line_comparison_series_data fmtA lNoNum = none ∧
    PlottersBackend.line_comparison_series_data fmtA lNoTyp = none ∧
    GnuplotBackend.violin_chart fmtA kdeNeg lA = none :=
  ⟨((C8_fatal_preconditions fmtA kdeNeg lNoNum).1
      ⟨(idNoNum, benchA), by simp [lNoNum], Or.inr rfl⟩).1,
   ((C8_fatal_preconditions fmtA kdeNeg lNoTyp).1
      ⟨(idA, benchNoTyp), by simp [lNoTyp], Or.inl rfl⟩).1,
   ((C8_fatal_preconditions fmtA kdeNeg lA).2
      (by norm_num [lA, kdeNeg, idA, benchA])).1⟩

/-! Helper lemmas about the violin charts. -/

lemma enum_map_get? {α β : Type} (f : Nat × α → β) (l : List α) (i : Nat) :
    (l.enum.map f).get? i = (l.get? i).map (fun a => f (i, a)) := by
  rw [List.get?_map, List.get?_enum]
  cases l.get? i <;> rfl

lemma gnuplot_violin_chart_eq_some (fmt : ValueFormatter)
    (kde : List ℚ → List ℚ × List ℚ) (l : List (BenchmarkId × Benchmark))
    (u : String) (curves : List (List ℚ × List ℚ × List ℚ))
    (h : GnuplotBackend.violin_chart fmt kde l = some (u, curves)) :
    ∃ first rest,
      positiveSupport ((GnuplotBackend.violin_kdes kde l).map Prod.fst) =
        first :: rest ∧
      u = fmt.unitFor
        (F.fin (((posMinMax first rest).1 + (posMinMax first rest).2) / 2)) ∧
      curves = (GnuplotBackend.violin_kdes kde l).enum.map (fun ip =>
        (ip.2.1.map (fun xv => xv * fmt.factor
            (F.fin (((posMinMax first rest).1 + (posMinMax first rest).2) / 2))),
         ip.2.2.map (fun yv => ((ip.1 : ℚ) + 1/2) + yv * (45/100)),
         ip.2.2.map (fun yv => ((ip.1 : ℚ) + 1/2) - yv * (45/100)))) := by
  unfold GnuplotBackend.violin_chart at h
  rcases hpos : positiveSupport ((GnuplotBackend.violin_kdes kde l).map Prod.fst)
    with _ | ⟨first, rest⟩ <;> simp only [hpos, ValueFormatter.scale_values] at h
  · exact absurd h (by simp)
  · obtain ⟨hu, hc⟩ := Prod.mk.injEq .. ▸ (Option.some_injective _ h)
    exact ⟨first, rest, rfl, hu.symm, hc.symm⟩

lemma plotters_violin_data_eq_some (fmt : ValueFormatter)
    (kde : List ℚ → List ℚ × List ℚ) (l : List (BenchmarkId × Benchmark))
    (u : String) (data : List (String × List ℚ × List ℚ))
    (h : PlottersBackend.violin_data fmt kde l = some (u, data)) :
    ∃ first rest,
      positiveSupport ((GnuplotBackend.violin_kdes kde l).map Prod.fst) =
        first :: rest ∧
      u = fmt.unitFor (F.fin (posMinMax first rest).2) ∧
      data = (PlottersBackend.violin_kdes kde l).map (fun c =>
        (c.1, c.2.1.map (fun xv => xv * fmt.factor (F.fin (posMinMax first rest).2)),
         c.2.2)) := by
  unfold PlottersBackend.violin_data at h
  simp only [violin_kdes_proj] at h
  rcases hpos : positiveSupport ((GnuplotBackend.violin_kdes kde l).map Prod.fst)
    with _ | ⟨first, rest⟩ <;> simp only [hpos, ValueFormatter.scale_values] at h
  · exact absurd h (by simp)
  · obtain ⟨hu, hc⟩ := Prod.mk.injEq .. ▸ (Option.some_injective _ h)
    exact ⟨first, rest, rfl, hu.symm, hc.symm⟩

lemma mem_gnuplot_violin_kdes (kde : List ℚ → List ℚ × List ℚ)
    (l : List (BenchmarkId × Benchmark)) (c : List ℚ × List ℚ)
    (hc : c ∈ GnuplotBackend.violin_kdes kde l) :
    ∃ p ∈ l, c = ((kde p.2.latest_stats.avg_values).1,
      normalizeCurve (kde p.2.latest_stats.avg_values).2) := by
  unfold GnuplotBackend.violin_kdes at hc
  rw [List.mem_map] at hc
  obtain ⟨p, hp, rfl⟩ := hc
  exact ⟨p, List.mem_reverse.1 hp, rfl⟩

/-- Counterexample for claim C1: with the magnitude-dependent formatter fmtB
and support values 1 and 5, the two backends resolve different units for the
violin chart (midpoint 3 against maximum 5), so the semantic chart data is
not the same. -/
theorem C1_counterexample :
    (GnuplotBackend.violin_chart fmtB kdeB lA).map Prod.fst = some "ms" ∧
    (PlottersBackend.violin_data fmtB kdeB lA).map Prod.fst = some "s" ∧
    some ("ms" : String) ≠ some "s" := by
  refine ⟨?_, ?_, by decide⟩
  · norm_num [GnuplotBackend.violin_chart, GnuplotBackend.violin_kdes, normalizeCurve,
      sampleMax, positiveSupport, posMinMax, ValueFormatter.scale_values, fmtB, kdeB,
      lA, idA, benchA]
  · norm_num [PlottersBackend.violin_data, PlottersBackend.violin_kdes, normalizeCurve,
      sampleMax, positiveSupport, posMinMax, ValueFormatter.scale_values, fmtB, kdeB,
      lA, idA, benchA]

/-- Claim C1 (amended): the two backends derive identical line-comparison
series data, and for violin charts they derive the same normalized density
curves, the same positive support values and agree on definedness; but the
violin unit resolution (midpoint against maximum representative) and band
placement (i + 0.5 with half-width 0.45 d against baseline i with half-width
d/2) differ between the backends, so the violin chart data is not shared. -/
theorem C1_backend_equivalence (fmt : ValueFormatter)
    (kde : List ℚ → List ℚ × List ℚ) (l : List (BenchmarkId × Benchmark)) :
    GnuplotBackend.line_comparison_data fmt l =
      PlottersBackend.line_comparison_series_data fmt l ∧
    (PlottersBackend.violin_kdes kde l).map (fun c => (c.2.1, c.2.2)) =
      GnuplotBackend.violin_kdes kde l ∧
    positiveSupport ((PlottersBackend.violin_kdes kde l).map (fun c => c.2.1)) =
      positiveSupport ((GnuplotBackend.violin_kdes kde l).map Prod.fst) ∧
    ((GnuplotBackend.violin_chart fmt kde l).isSome ↔
      (PlottersBackend.violin_data fmt kde l).isSome) := by
  refine ⟨line_data_eq fmt l, violin_kdes_strip kde l,
    by rw [violin_kdes_proj], ?_⟩
  unfold GnuplotBackend.violin_chart PlottersBackend.violin_data
  simp only [violin_kdes_proj]
  rcases hpos : positiveSupport ((GnuplotBackend.violin_kdes kde l).map Prod.fst)
    with _ | ⟨first, rest⟩ <;> simp

/-- Counterexample for claim C2: the plotters backend passes the unit
resolver the maximum positive support value, not the midpoint: with support
values 1 and 5 and the magnitude-dependent formatter fmtB, the resolved unit
is the one of the maximum 5, not the one of the midpoint 3. -/
theorem C2_counterexample :
    (PlottersBackend.violin_data fmtB kdeB lA).map Prod.fst = some "s" ∧
    fmtB.unitFor (F.fin ((1 + 5) / 2)) = "ms" ∧
    ("s" : String) ≠ "ms" := by
  refine ⟨?_, ?_, by decide⟩
  · norm_num [PlottersBackend.violin_data, PlottersBackend.violin_kdes, normalizeCurve,
      sampleMax, positiveSupport, posMinMax, ValueFormatter.scale_values, fmtB, kdeB,
      lA, idA, benchA]
  · norm_num [fmtB]

/-- Claim C2 (amended): when the curves hold at least one positive support
value, the violin min/max loop computes the true global minimum and maximum
of the strictly positive support values across all curves; the gnuplot
backend feeds the unit resolver the midpoint (min + max) / 2 and multiplies
every curve's support values by the one multiplier resolved from it, while
the plotters backend feeds the resolver the maximum instead, also applying
its one multiplier to every curve. -/
theorem C2_violin_representative (fmt : ValueFormatter)
    (kde : List ℚ → List ℚ × List ℚ) (l : List (BenchmarkId × Benchmark))
    (first : ℚ) (rest : List ℚ)
    (hpos : positiveSupport ((GnuplotBackend.violin_kdes kde l).map Prod.fst) =
      first :: rest) :
    ((posMinMax first rest).1 ∈ first :: rest ∧
      (posMinMax first rest).2 ∈ first :: rest ∧
      (∀ x ∈ first :: rest,
        (posMinMax first rest).1 ≤ x ∧ x ≤ (posMinMax first rest).2)) ∧
    GnuplotBackend.violin_chart fmt kde l =
      some (fmt.unitFor
          (F.fin (((posMinMax first rest).1 + (posMinMax first rest).2) / 2)),
        (GnuplotBackend.violin_kdes kde l).enum.map (fun ip =>
          (ip.2.1.map (fun xv => xv * fmt.factor
              (F.fin (((posMinMax first rest).1 + (posMinMax first rest).2) / 2))),
           ip.2.2.map (fun yv => ((ip.1 : ℚ) + 1/2) + yv * (45/100)),
           ip.2.2.map (fun yv => ((ip.1 : ℚ) + 1/2) - yv * (45/100))))) ∧
    PlottersBackend.violin_data fmt kde l =
      some (fmt.unitFor (F.fin (posMinMax first rest).2),
        (PlottersBackend.violin_kdes kde l).map (fun c =>
          (c.1, c.2.1.map (fun xv => xv * fmt.factor (F.fin (posMinMax first rest).2)),
           c.2.2))) := by
  refine ⟨posMinMax_spec first rest, ?_, ?_⟩
  · unfold GnuplotBackend.violin_chart
    simp only [hpos, ValueFormatter.scale_values]
  · unfold PlottersBackend.violin_data
    simp only [violin_kdes_proj, hpos, ValueFormatter.scale_values]

/-- Witness for C2 at support values 1 and 5: the gnuplot unit comes from
the midpoint 3. -/
theorem C2_violin_representative_witness :
    positiveSupport ((GnuplotBackend.violin_kdes kdeB lA).map Prod.fst) = 1 :: [5] ∧
    (GnuplotBackend.violin_chart fmtB kdeB lA).map Prod.fst = some "ms" := by
  have hpos : positiveSupport ((GnuplotBackend.violin_kdes kdeB lA).map Prod.fst) =
      1 :: [5] := by
    norm_num [GnuplotBackend.violin_kdes, normalizeCurve, sampleMax, positiveSupport,
      kdeB, lA, idA, benchA]
  have h := C2_violin_representative fmtB kdeB lA 1 [5] hpos
  refine ⟨hpos, ?_⟩
  rw [h.2.1]
  norm_num [posMinMax, fmtB]

/-- Counterexample for claim C3: in the plotters backend, the single violin
of a one-benchmark chart with unit density is drawn from baseline 0 with
upper offset one half, so its band is not centered at 0.5 and its upper edge
is 0.5, not 0.5 + 0.45. -/
theorem C3_counterexample :
    (PlottersBackend.violin_chart fmtA kdeA lA).map (fun ud => ud.2.map (fun b => b.2.1)) =
      some [[((1 : ℚ), (1/2 : ℚ))]] ∧
    ((1 : ℚ), (1/2 : ℚ)) ≠ ((1 : ℚ), (19/20 : ℚ)) := by
  constructor
  · norm_num [PlottersBackend.violin_chart, PlottersBackend.violin_data,
      PlottersBackend.violin_kdes, PlottersBackend.draw_violin_bands, normalizeCurve,
      sampleMax, positiveSupport, posMinMax, ValueFormatter.scale_values, fmtA, kdeA,
      lA, idA, benchA]
  · norm_num

/-- Claim C3 (amended): in the gnuplot backend the curve of index i in the
reversed order is a filled region between (i + 0.5) + 0.45 d and
(i + 0.5) - 0.45 d over its normalized densities d, which lie in [0, 1]
whenever the raw densities are nonnegative, so the band stays within 0.45 of
its center i + 0.5 (for three benchmarks the centers are 0.5, 1.5, 2.5); in
the plotters backend the curve of index i is instead drawn from the baseline
i with offsets of half the density: centered at i, half-width up to 0.5. -/
theorem C3_violin_layout (fmt : ValueFormatter) (kde : List ℚ → List ℚ × List ℚ)
    (l : List (BenchmarkId × Benchmark)) (i : Nat)
    (hd : ∀ s : List ℚ, ∀ v ∈ (kde s).2, 0 ≤ v) :
    (∀ u curves c, GnuplotBackend.violin_chart fmt kde l = some (u, curves) →
      curves.get? i = some c →
      ∃ ys : List ℚ,
        c.2.1 = ys.map (fun v => ((i : ℚ) + 1/2) + v * (45/100)) ∧
        c.2.2 = ys.map (fun v => ((i : ℚ) + 1/2) - v * (45/100)) ∧
        (∀ v ∈ ys, 0 ≤ v ∧ v ≤ 1) ∧
        (∀ a ∈ c.2.1, a ≤ ((i : ℚ) + 1/2) + 45/100) ∧
        (∀ a ∈ c.2.2, ((i : ℚ) + 1/2) - 45/100 ≤ a)) ∧
    (∀ u bands b, PlottersBackend.violin_chart fmt kde l = some (u, bands) →
      bands.get? i = some b →
      b.1 = (i : ℚ) ∧
      ∃ xs ys : List ℚ,
        b.2.1 = xs.zip (ys.map (fun v => (i : ℚ) + v / 2)) ∧
        b.2.2 = xs.zip (ys.map (fun v => (i : ℚ) - v / 2))) := by
  constructor
  · intro u curves c hchart hget
    obtain ⟨first, rest, hpos, hu, hcurves⟩ :=
      gnuplot_violin_chart_eq_some fmt kde l u curves hchart
    rw [hcurves, enum_map_get?] at hget
    rcases hkp : (GnuplotBackend.violin_kdes kde l).get? i with _ | kp <;>
      rw [hkp] at hget
    · exact absurd hget (by simp)
    · obtain rfl := (Option.some_injective _ hget).symm
      have hkmem : kp ∈ GnuplotBackend.violin_kdes kde l := List.get?_mem hkp
      obtain ⟨p, hpl, hkp_eq⟩ := mem_gnuplot_violin_kdes kde l kp hkmem
      have hybounds : ∀ v ∈ kp.2, 0 ≤ v ∧ v ≤ 1 := by
        rw [hkp_eq]
        exact normalizeCurve_bounds _ (hd p.2.latest_stats.avg_values)
      refine ⟨kp.2, rfl, rfl, hybounds, ?_, ?_⟩
      · intro a ha
        rw [List.mem_map] at ha
        obtain ⟨v, hv, rfl⟩ := ha
        have hv1 := (hybounds v hv).2
        have : v * (45/100 : ℚ) ≤ 45/100 :=
          mul_le_of_le_one_left (by norm_num) hv1
        linarith
      · intro a ha
        rw [List.mem_map] at ha
        obtain ⟨v, hv, rfl⟩ := ha
        have hv1 := (hybounds v hv).2
        have : v * (45/100 : ℚ) ≤ 45/100 :=
          mul_le_of_le_one_left (by norm_num) hv1
        linarith
  · intro u bands b hchart hget
    unfold PlottersBackend.violin_chart at hchart
    rcases hdata : PlottersBackend.violin_data fmt kde l with _ | ud <;>
      rw [hdata] at hchart
    · exact absurd hchart (by simp)
    · obtain ⟨hu, hbands⟩ := Prod.mk.injEq .. ▸ (Option.some_injective _ hchart)
      rw [← hbands, PlottersBackend.draw_violin_bands, enum_map_get?] at hget
      rcases hdp : ud.2.get? i with _ | dp <;> rw [hdp] at hget
      · exact absurd hget (by simp)
      · obtain rfl := (Option.some_injective _ hget).symm
        exact ⟨rfl, dp.2.1, dp.2.2, rfl, rfl⟩

/-- Witness for C3 at one benchmark with unit density: the gnuplot band is
[0.05, 0.95] about the center 0.5 and the plotters band starts at the
baseline 0. -/
theorem C3_violin_layout_witness :
    (∀ s : List ℚ, ∀ v ∈ (kdeA s).2, 0 ≤ v) ∧
    (∃ ys : List ℚ,
      ([(19/20 : ℚ)] : List ℚ) = ys.map (fun v => ((0 : ℚ) + 1/2) + v * (45/100)) ∧
      ([(1/20 : ℚ)] : List ℚ) = ys.map (fun v => ((0 : ℚ) + 1/2) - v * (45/100)) ∧
      (∀ v ∈ ys, 0 ≤ v ∧ v ≤ 1) ∧
      (∀ a ∈ ([(19/20 : ℚ)] : List ℚ), a ≤ ((0 : ℚ) + 1/2) + 45/100) ∧
      (∀ a ∈ ([(1/20 : ℚ)] : List ℚ), ((0 : ℚ) + 1/2) - 45/100 ≤ a)) := by
  have hd : ∀ s : List ℚ, ∀ v ∈ (kdeA s).2, 0 ≤ v := by
    intro s v hv
    simp only [kdeA] at hv
    rw [List.mem_singleton] at hv
    rw [hv]
    norm_num
  have h := (C3_violin_layout fmtA kdeA lA 0 hd).1 "s" [([1], [19/20], [1/20])]
    ([1], [19/20], [1/20]) ?hchart ?hget
  case hchart =>
    norm_num [GnuplotBackend.violin_chart, GnuplotBackend.violin_kdes, normalizeCurve,
      sampleMax, positiveSupport, posMinMax, ValueFormatter.scale_values, fmtA, kdeA,
      lA, idA, benchA]
  case hget => rfl
  refine ⟨hd, ?_⟩
  simpa using h
